import Mathlib

/-!
Verification of the gamepad-to-ELRS bridge (examples/gamepad.py): the
calibration state machine, the mapping store orchestration and the runtime
axis/button-to-channel mapper, embedded shallowly with rational numbers in
place of Python floats.
-/

namespace Gamepad

/-- Number of channels in one ELRS frame (source constant NUM_CHANNELS = 16). -/
def NUM_CHANNELS : ℕ := 16

/-- Number of calibrated axes (source constant CAL_CHANNELS = 4). -/
def CAL_CHANNELS : ℕ := 4

/-- Default movement threshold of wait_for_axis_movement (source default thresh = 0.6). -/
def cal_thresh : ℚ := 6 / 10

/-- The Python builtin int() applied to a number: truncation toward zero. -/
def pyInt (q : ℚ) : ℤ := if 0 ≤ q then ⌊q⌋ else -⌊-q⌋

/-- Embeds axis_to_channel from elrs_loop:
max(0, min(2047, int((value + 1.0) * 1024))). -/
def axis_to_channel (value : ℚ) : ℤ :=
  max 0 (min 2047 (pyInt ((value + 1) * 1024)))

/-- The conversion law as the specification words it:
clamp(round((value + 1.0) * 1024), 0, 2047). Defined only to be compared
against the source function axis_to_channel. -/
def axis_to_channel_round (value : ℚ) : ℤ :=
  max 0 (min 2047 (round ((value + 1) * 1024)))

lemma axis_to_channel_nonneg (v : ℚ) : 0 ≤ axis_to_channel v :=
  le_max_left _ _

lemma axis_to_channel_le (v : ℚ) : axis_to_channel v ≤ 2047 :=
  max_le (by norm_num) (min_le_left _ _)

lemma pyInt_mono_nonneg {a b : ℚ} (ha : 0 ≤ a) (hab : a ≤ b) :
    pyInt a ≤ pyInt b := by
  unfold pyInt
  rw [if_pos ha, if_pos (ha.trans hab)]
  exact Int.floor_mono hab

lemma axis_to_channel_mono {v w : ℚ} (hv : -1 ≤ v) (hvw : v ≤ w) :
    axis_to_channel v ≤ axis_to_channel w := by
  unfold axis_to_channel
  have h1 : (0 : ℚ) ≤ (v + 1) * 1024 := by nlinarith
  have h2 : (v + 1) * 1024 ≤ (w + 1) * 1024 := by nlinarith
  exact max_le_max le_rfl (min_le_min le_rfl (pyInt_mono_nonneg h1 h2))

/-- C1 (counterexample): at value -1/2048, which lies in [-1, 1], the code
yields 1023 (Python int() truncates (value + 1.0) * 1024 = 1023.5 down) while
the claimed law clamp(round((value + 1.0) * 1024), 0, 2047) yields 1024, so the
conversion does not use rounding. -/
theorem C1_counterexample :
    axis_to_channel (-(1 / 2048)) = 1023 ∧
      axis_to_channel_round (-(1 / 2048)) = 1024 ∧
      (-1 : ℚ) ≤ -(1 / 2048) ∧ (-(1 / 2048) : ℚ) ≤ 1 := by
  refine ⟨?_, ?_, by norm_num, by norm_num⟩
  · show max 0 (min 2047 (pyInt ((-(1 / 2048) + 1) * 1024))) = 1023
    have : ((-(1 / 2048) : ℚ) + 1) * 1024 = 2047 / 2 := by norm_num
    rw [this]
    have h0 : (0 : ℚ) ≤ 2047 / 2 := by norm_num
    rw [pyInt, if_pos h0]
    norm_num
  · show max 0 (min 2047 (round ((-(1 / 2048) + 1) * 1024))) = 1024
    have : ((-(1 / 2048) : ℚ) + 1) * 1024 = 2047 / 2 := by norm_num
    rw [this, round_eq]
    norm_num

/-- C1 (amended): for every value v ≥ -1 (so in particular on [-1, 1]),
axis_to_channel computes clamp(floor((v + 1) * 1024), 0, 2047): the Python
int() truncation toward zero, which on the nonnegative argument
(v + 1) * 1024 is the floor, not rounding. -/
theorem C1_truncation (v : ℚ) (hv : -1 ≤ v) :
    axis_to_channel v = max 0 (min 2047 ⌊(v + 1) * 1024⌋) := by
  unfold axis_to_channel pyInt
  rw [if_pos (by nlinarith)]

theorem C1_truncation_witness :
    axis_to_channel (-(1 / 2048)) =
      max 0 (min 2047 ⌊((-(1 / 2048) : ℚ) + 1) * 1024⌋) :=
  C1_truncation (-(1 / 2048)) (by norm_num)

/-- C8: on [-1, 1] the conversion axis_to_channel stays inside [0, 2047], is
monotonically non-decreasing, and takes the values 0, 2047 and 1024 at the
inputs -1, 1 and 0. -/
theorem C8_range_mono_endpoints :
    (∀ v : ℚ, -1 ≤ v → v ≤ 1 → 0 ≤ axis_to_channel v ∧ axis_to_channel v ≤ 2047) ∧
      (∀ v w : ℚ, -1 ≤ v → v ≤ w → w ≤ 1 → axis_to_channel v ≤ axis_to_channel w) ∧
      axis_to_channel (-1) = 0 ∧ axis_to_channel 1 = 2047 ∧ axis_to_channel 0 = 1024 :=
  ⟨fun v _ _ => ⟨axis_to_channel_nonneg v, axis_to_channel_le v⟩,
    fun _ _ hv hvw _ => axis_to_channel_mono hv hvw,
    by norm_num [axis_to_channel, pyInt],
    by norm_num [axis_to_channel, pyInt],
    by norm_num [axis_to_channel, pyInt]⟩

theorem C8_witness :
    (0 ≤ axis_to_channel (1 / 2) ∧ axis_to_channel (1 / 2) ≤ 2047) ∧
      axis_to_channel 0 ≤ axis_to_channel (1 / 2) :=
  ⟨C8_range_mono_endpoints.1 (1 / 2) (by norm_num) (by norm_num),
    C8_range_mono_endpoints.2.1 0 (1 / 2) (by norm_num) (by norm_num) (by norm_num)⟩

/-- One axis binding of the mapping: the dict {"index": idx, "inverted": inverted}
returned by wait_for_axis_movement. -/
structure AxisBinding where
  index : ℕ
  inverted : Bool
deriving DecidableEq, Repr

/-- The mapping assembled by calibrate:
{"axes": [...4 axis bindings...], "buttons": {"btn_a": a, "btn_b": b}}. -/
structure Mapping where
  axes : List AxisBinding
  btn_a : ℕ
  btn_b : ℕ
deriving DecidableEq, Repr

/-- Inversion applied in the elrs_loop body: if inv_flags[ch]: raw = -raw. -/
def apply_inversion (b : AxisBinding) (raw : ℚ) : ℚ :=
  if b.inverted then -raw else raw

/-- One iteration of the elrs_loop while-loop body, as a pure function of the
mapping and a snapshot of the input device (axis values and button states):
channels = [1024] * NUM_CHANNELS; for ch, idx in enumerate(axis_indices):
channels[ch] = axis_to_channel(+-raw); channels[4] and channels[5] are set from
the two buttons. -/
def map_cycle (m : Mapping) (axisVal : ℕ → ℚ) (btnVal : ℕ → Bool) : List ℤ :=
  let channels := List.replicate NUM_CHANNELS (1024 : ℤ)
  let channels := m.axes.enum.foldl
    (fun cs p => cs.set p.1 (axis_to_channel (apply_inversion p.2 (axisVal p.2.index))))
    channels
  let channels := channels.set 4 (if btnVal m.btn_a then 2047 else 0)
  channels.set 5 (if btnVal m.btn_b then 2047 else 0)

lemma map_cycle_four (b0 b1 b2 b3 : AxisBinding) (a bb : ℕ)
    (f : ℕ → ℚ) (g : ℕ → Bool) :
    map_cycle ⟨[b0, b1, b2, b3], a, bb⟩ f g =
      [axis_to_channel (apply_inversion b0 (f b0.index)),
        axis_to_channel (apply_inversion b1 (f b1.index)),
        axis_to_channel (apply_inversion b2 (f b2.index)),
        axis_to_channel (apply_inversion b3 (f b3.index)),
        (if g a then 2047 else 0), (if g bb then 2047 else 0),
        1024, 1024, 1024, 1024, 1024, 1024, 1024, 1024, 1024, 1024] := rfl

/-- C2: for every well-formed mapping (4 axis bindings with pairwise distinct
physical indices, two distinct buttons) and every snapshot of raw axis values
and button states, one cycle of elrs_loop produces a frame of exactly 16
integers where slot ch (ch = 0..3) is axis_to_channel of the raw value of the
ch-th binding, negated when that binding is inverted; slot 4 is 2047 exactly
when button A is pressed, else 0, slot 5 likewise for button B; slots 6-15 are
1024; and every slot lies in [0, 2047] for arbitrary (even out-of-range) raw
axis values. -/
theorem C2_map_cycle_frame (m : Mapping) (h4 : m.axes.length = 4)
    (hdist : m.axes.Pairwise fun x y => x.index ≠ y.index)
    (hb : m.btn_a ≠ m.btn_b) (axisVal : ℕ → ℚ) (btnVal : ℕ → Bool) :
    (map_cycle m axisVal btnVal).length = 16 ∧
      (∀ ch : ℕ, ch < 4 →
        (map_cycle m axisVal btnVal).getD ch 0 =
          axis_to_channel (apply_inversion (m.axes.getD ch ⟨0, false⟩)
            (axisVal (m.axes.getD ch ⟨0, false⟩).index))) ∧
      (map_cycle m axisVal btnVal).getD 4 0 = (if btnVal m.btn_a then 2047 else 0) ∧
      (map_cycle m axisVal btnVal).getD 5 0 = (if btnVal m.btn_b then 2047 else 0) ∧
      (∀ i : ℕ, 6 ≤ i → i < 16 → (map_cycle m axisVal btnVal).getD i 0 = 1024) ∧
      (∀ i : ℕ, i < 16 → 0 ≤ (map_cycle m axisVal btnVal).getD i 0 ∧
        (map_cycle m axisVal btnVal).getD i 0 ≤ 2047) := by
  obtain ⟨axes, a, bb⟩ := m
  rcases axes with _ | ⟨b0, axes⟩
  · simp at h4
  rcases axes with _ | ⟨b1, axes⟩
  · simp at h4
  rcases axes with _ | ⟨b2, axes⟩
  · simp at h4
  rcases axes with _ | ⟨b3, axes⟩
  · simp at h4
  rcases axes with _ | ⟨b4, axes⟩
  · refine ⟨rfl, ?_, rfl, rfl, ?_, ?_⟩
    · intro ch hch
      interval_cases ch <;> rfl
    · intro i h6 h16
      interval_cases i <;> rfl
    · intro i h16
      cases hA : btnVal a <;> cases hB : btnVal bb <;>
        rw [map_cycle_four, hA, hB] <;>
        interval_cases i <;>
        simp only [Bool.false_eq_true, if_true, if_false] <;>
        first
          | exact ⟨axis_to_channel_nonneg _, axis_to_channel_le _⟩
          | norm_num
  · simp at h4

theorem C2_witness :
    (map_cycle ⟨[⟨0, false⟩, ⟨1, true⟩, ⟨2, false⟩, ⟨3, false⟩], 5, 7⟩
      (fun i => [(1 : ℚ), 1, -1, 0].getD i 0) (fun b => b = 5)).length = 16 :=
  (C2_map_cycle_frame ⟨[⟨0, false⟩, ⟨1, true⟩, ⟨2, false⟩, ⟨3, false⟩], 5, 7⟩
    rfl (by norm_num) (by norm_num)
    (fun i => [(1 : ℚ), 1, -1, 0].getD i 0) (fun b => b = 5)).1

/-- One entry of the diffs list computed in wait_for_axis_movement:
0.0 if i in used_axes else joystick.get_axis(i) - baseline[i]. -/
def diff_at (current baseline : List ℚ) (used : List ℕ) (i : ℕ) : ℚ :=
  if i ∈ used then 0 else current.getD i 0 - baseline.getD i 0

/-- enumerate(diffs): the list of pairs (i, diffs[i]) for i in
range(axis_count), where axis_count is the number of axes of the current
snapshot. -/
def diff_pairs (current baseline : List ℚ) (used : List ℕ) : List (ℕ × ℚ) :=
  (List.range current.length).map (fun i => (i, diff_at current baseline used i))

/-- The Python builtin max(..., key=lambda x: abs(x[1])): scans left to right
and replaces the running best only on a strictly larger key, so the first
maximal element wins. -/
def max_by_abs (best : ℕ × ℚ) : List (ℕ × ℚ) → ℕ × ℚ
  | [] => best
  | p :: rest => max_by_abs (if |best.2| < |p.2| then p else best) rest

/-- One iteration of the while-loop body of wait_for_axis_movement: compute
the diffs over one sampled snapshot, take the argmax by absolute value, and
return {"index": idx, "inverted": current[idx] < baseline[idx]} when the
winning absolute delta reaches the threshold, nothing otherwise. (With zero
axes, Python max raises on the empty sequence; no detection is modelled.) -/
def wait_for_axis_movement_step (current baseline : List ℚ) (used : List ℕ)
    (thresh : ℚ) : Option (ℕ × Bool) :=
  match diff_pairs current baseline used with
  | [] => none
  | p :: rest =>
    let w := max_by_abs p rest
    if thresh ≤ |w.2| then
      some (w.1, decide (current.getD w.1 0 < baseline.getD w.1 0))
    else none

/-- wait_for_axis_movement: repeatedly sample the axes (here: walk a stream of
snapshots) until one iteration detects a movement; returns the detection
result, the snapshot at detection time (the axis values calibrate reads back
right after the call returns) and the remaining stream. -/
def wait_for_axis_movement (samples : List (List ℚ)) (baseline : List ℚ)
    (used : List ℕ) (thresh : ℚ) :
    Option ((ℕ × Bool) × List ℚ × List (List ℚ)) :=
  match samples with
  | [] => none
  | s :: rest =>
    match wait_for_axis_movement_step s baseline used thresh with
    | some r => some (r, s, rest)
    | none => wait_for_axis_movement rest baseline used thresh

/-- wait_for_button_press: drain the discrete button-press event stream until
an event arrives whose button is not in already_taken; returns that button and
the remaining stream. -/
def wait_for_button_press (events : List ℕ) (already_taken : List ℕ) :
    Option (ℕ × List ℕ) :=
  match events with
  | [] => none
  | e :: rest =>
    if e ∈ already_taken then wait_for_button_press rest already_taken
    else some (e, rest)

/-- The axis phase of calibrate: for ch in range(CAL_CHANNELS), call
wait_for_axis_movement with the default threshold, append the detected
binding, add its index to used_axes, and re-capture the baseline from the
current axis values (the snapshot at detection time). -/
def calibrate_axes : ℕ → List (List ℚ) → List ℚ → List ℕ →
    Option (List AxisBinding × List (List ℚ))
  | 0, samples, _, _ => some ([], samples)
  | n + 1, samples, baseline, used =>
    match wait_for_axis_movement samples baseline used cal_thresh with
    | none => none
    | some ((i, inv), last, rest) =>
      match calibrate_axes n rest last (i :: used) with
      | none => none
      | some (bs, rest2) => some (⟨i, inv⟩ :: bs, rest2)

/-- calibrate: run the axis phase for CAL_CHANNELS channels starting from the
initial baseline, then detect button A against an empty taken set and button B
against {button_a}, and assemble the mapping. Returns nothing when the finite
modelled input streams run out before every step fires (the Python code would
block forever instead). -/
def calibrate (samples : List (List ℚ)) (baseline0 : List ℚ)
    (events : List ℕ) : Option Mapping :=
  match calibrate_axes CAL_CHANNELS samples baseline0 [] with
  | none => none
  | some (axes, _) =>
    match wait_for_button_press events [] with
    | none => none
    | some (a, evRest) =>
      match wait_for_button_press evRest [a] with
      | none => none
      | some (b, _) => some ⟨axes, a, b⟩

lemma max_by_abs_mem (best : ℕ × ℚ) (l : List (ℕ × ℚ)) :
    max_by_abs best l ∈ best :: l := by
  induction l generalizing best with
  | nil => simp [max_by_abs]
  | cons p rest ih =>
    rw [max_by_abs]
    by_cases hc : |best.2| < |p.2|
    · rw [if_pos hc]
      rcases List.mem_cons.1 (ih p) with h1 | h1
      · simp [h1]
      · exact List.mem_cons_of_mem _ (List.mem_cons_of_mem _ h1)
    · rw [if_neg hc]
      rcases List.mem_cons.1 (ih best) with h1 | h1
      · simp [h1]
      · exact List.mem_cons_of_mem _ (List.mem_cons_of_mem _ h1)

lemma max_by_abs_ge (best : ℕ × ℚ) (l : List (ℕ × ℚ)) :
    ∀ q ∈ best :: l, |q.2| ≤ |(max_by_abs best l).2| := by
  induction l generalizing best with
  | nil =>
    intro q hq
    rcases List.mem_cons.1 hq with h | h
    · rw [h]; exact le_rfl
    · simp at h
  | cons p rest ih =>
    intro q hq
    rw [max_by_abs]
    by_cases hc : |best.2| < |p.2|
    · rw [if_pos hc]
      rcases List.mem_cons.1 hq with h | h
      · rw [h]
        exact hc.le.trans (ih p p (List.mem_cons_self _ _))
      · exact ih p q h
    · rw [if_neg hc]
      rcases List.mem_cons.1 hq with h | h
      · exact ih best q (h ▸ List.mem_cons_self _ _)
      · rcases List.mem_cons.1 h with h2 | h2
        · rw [h2]
          exact (not_lt.1 hc).trans (ih best best (List.mem_cons_self _ _))
        · exact ih best q (List.mem_cons_of_mem _ h2)

lemma max_by_abs_ne_best (best : ℕ × ℚ) (l : List (ℕ × ℚ))
    (h : max_by_abs best l ≠ best) : |best.2| < |(max_by_abs best l).2| := by
  induction l generalizing best with
  | nil => simp [max_by_abs] at h
  | cons p rest ih =>
    rw [max_by_abs] at h ⊢
    by_cases hc : |best.2| < |p.2|
    · rw [if_pos hc] at h ⊢
      rcases eq_or_ne (max_by_abs p rest) p with h2 | h2
      · rw [h2]; exact hc
      · exact hc.trans (ih p h2)
    · rw [if_neg hc] at h ⊢
      exact ih best h

lemma max_by_abs_first (best : ℕ × ℚ) (l : List (ℕ × ℚ))
    (hs : (best :: l).Pairwise fun x y => x.1 < y.1) :
    ∀ q ∈ best :: l, q.1 < (max_by_abs best l).1 →
      |q.2| < |(max_by_abs best l).2| := by
  induction l generalizing best with
  | nil =>
    intro q hq hlt
    rcases List.mem_cons.1 hq with h | h
    · rw [h] at hlt
      simp [max_by_abs] at hlt
    · simp at h
  | cons p rest ih =>
    rw [List.pairwise_cons] at hs
    obtain ⟨hbest, hs2⟩ := hs
    intro q hq hlt
    rw [max_by_abs] at hlt ⊢
    by_cases hc : |best.2| < |p.2|
    · rw [if_pos hc] at hlt ⊢
      rcases List.mem_cons.1 hq with h | h
      · rw [h]
        exact hc.trans_le (max_by_abs_ge p rest p (List.mem_cons_self _ _))
      · exact ih p hs2 q h hlt
    · rw [if_neg hc] at hlt ⊢
      have hmem := max_by_abs_mem best rest
      have hs3 : (best :: rest).Pairwise fun x y => x.1 < y.1 := by
        rw [List.pairwise_cons]
        rw [List.pairwise_cons] at hs2
        exact ⟨fun y hy => hbest y (List.mem_cons_of_mem _ hy), hs2.2⟩
      rcases List.mem_cons.1 hq with h | h
      · rw [h] at hlt
        have hne : max_by_abs best rest ≠ best := by
          intro he
          rw [he] at hlt
          exact lt_irrefl _ hlt
        have := max_by_abs_ne_best best rest hne
        rw [h]
        exact this
      rcases List.mem_cons.1 h with h2 | h2
      · have hne : max_by_abs best rest ≠ best := by
          intro he
          rw [he] at hlt
          have h1 : best.1 < q.1 := by
            rw [h2]
            exact hbest p (List.mem_cons_self _ _)
          exact absurd hlt (not_lt.2 h1.le)
        have hstrict := max_by_abs_ne_best best rest hne
        rw [h2]
        exact (not_lt.1 hc).trans_lt hstrict
      · exact ih best hs3 q (List.mem_cons_of_mem _ h2) hlt

lemma mem_diff_pairs {c b : List ℚ} {u : List ℕ} {q : ℕ × ℚ} :
    q ∈ diff_pairs c b u ↔ q.1 < c.length ∧ q.2 = diff_at c b u q.1 := by
  obtain ⟨q1, q2⟩ := q
  constructor
  · intro h
    rcases List.mem_map.1 h with ⟨i, hi, hq⟩
    cases hq
    exact ⟨List.mem_range.1 hi, rfl⟩
  · rintro ⟨h1, h2⟩
    refine List.mem_map.2 ⟨q1, List.mem_range.2 h1, ?_⟩
    simp at h2 ⊢
    exact h2.symm

lemma diff_pairs_sorted (c b : List ℚ) (u : List ℕ) :
    (diff_pairs c b u).Pairwise fun x y => x.1 < y.1 := by
  unfold diff_pairs
  rw [List.pairwise_map]
  exact List.pairwise_lt_range _

lemma step_some {c b : List ℚ} {u : List ℕ} {t : ℚ} {i : ℕ} {inv : Bool}
    (h : wait_for_axis_movement_step c b u t = some (i, inv)) :
    i < c.length ∧ t ≤ |diff_at c b u i| ∧
      (∀ j, j < c.length → |diff_at c b u j| ≤ |diff_at c b u i|) ∧
      (inv = true ↔ c.getD i 0 < b.getD i 0) ∧
      (∀ j, j < i → |diff_at c b u j| < |diff_at c b u i|) := by
  unfold wait_for_axis_movement_step at h
  rcases hdp : diff_pairs c b u with _ | ⟨p, rest⟩ <;> rw [hdp] at h
  · exact absurd h (by simp)
  dsimp only at h
  by_cases hth : t ≤ |(max_by_abs p rest).2|
  · rw [if_pos hth] at h
    injection h with h
    injection h with h1 h2
    have hwmem : max_by_abs p rest ∈ diff_pairs c b u := by
      rw [hdp]; exact max_by_abs_mem p rest
    obtain ⟨hwlt, hweq⟩ := mem_diff_pairs.1 hwmem
    subst h1
    refine ⟨hwlt, ?_, ?_, ?_, ?_⟩
    · rw [← hweq]; exact hth
    · intro j hj
      have hjmem : ((j, diff_at c b u j) : ℕ × ℚ) ∈ diff_pairs c b u :=
        mem_diff_pairs.2 ⟨hj, rfl⟩
      rw [hdp] at hjmem
      have := max_by_abs_ge p rest _ hjmem
      rw [← hweq]; exact this
    · rw [← h2]
      exact ⟨of_decide_eq_true, decide_eq_true⟩
    · intro j hji
      have hjmem : ((j, diff_at c b u j) : ℕ × ℚ) ∈ diff_pairs c b u :=
        mem_diff_pairs.2 ⟨hji.trans hwlt, rfl⟩
      rw [hdp] at hjmem
      have hsorted := diff_pairs_sorted c b u
      rw [hdp] at hsorted
      have := max_by_abs_first p rest hsorted _ hjmem hji
      rw [← hweq]; exact this
  · rw [if_neg hth] at h
    exact absurd h (by simp)

lemma step_not_used {c b : List ℚ} {u : List ℕ} {t : ℚ} {i : ℕ} {inv : Bool}
    (ht : 0 < t) (h : wait_for_axis_movement_step c b u t = some (i, inv)) :
    i ∉ u := by
  intro hiu
  have h2 := (step_some h).2.1
  rw [diff_at, if_pos hiu] at h2
  simp at h2
  exact absurd (ht.trans_le h2) (lt_irrefl 0)

lemma wait_some_step {samples : List (List ℚ)} {b : List ℚ} {u : List ℕ}
    {t : ℚ} {r : ℕ × Bool} {s : List ℚ} {rest : List (List ℚ)}
    (h : wait_for_axis_movement samples b u t = some (r, s, rest)) :
    wait_for_axis_movement_step s b u t = some r := by
  induction samples with
  | nil => exact absurd h (by simp [wait_for_axis_movement])
  | cons s0 rest0 ih =>
    rw [wait_for_axis_movement] at h
    rcases hs : wait_for_axis_movement_step s0 b u t with _ | r0 <;> rw [hs] at h
    · exact ih h
    · injection h with h
      injection h with h1 h2
      injection h2 with h2 h3
      subst h1; subst h2
      exact hs

lemma wait_axis_not_used {samples : List (List ℚ)} {baseline : List ℚ}
    {u : List ℕ} {t : ℚ} {i : ℕ} {inv : Bool} {s : List ℚ}
    {rest : List (List ℚ)} (ht : 0 < t)
    (h : wait_for_axis_movement samples baseline u t = some ((i, inv), s, rest)) :
    i ∉ u :=
  step_not_used ht (wait_some_step h)

lemma wait_button_not_taken :
    ∀ (events taken : List ℕ) (b : ℕ) (rest : List ℕ),
      wait_for_button_press events taken = some (b, rest) → b ∉ taken := by
  intro events
  induction events with
  | nil =>
    intro taken b rest h
    exact absurd h (by simp [wait_for_button_press])
  | cons e es ih =>
    intro taken b rest h
    rw [wait_for_button_press] at h
    by_cases he : e ∈ taken
    · rw [if_pos he] at h
      exact ih taken b rest h
    · rw [if_neg he] at h
      injection h with h
      injection h with h1 h2
      subst h1
      exact he

lemma calibrate_axes_distinct :
    ∀ (n : ℕ) (samples : List (List ℚ)) (baseline : List ℚ) (used : List ℕ)
      (bs : List AxisBinding) (rest : List (List ℚ)),
      calibrate_axes n samples baseline used = some (bs, rest) →
      (∀ x ∈ bs, x.index ∉ used) ∧ bs.Pairwise fun x y => x.index ≠ y.index := by
  intro n
  induction n with
  | zero =>
    intro samples baseline used bs rest h
    rw [calibrate_axes] at h
    injection h with h
    injection h with h1 h2
    subst h1
    exact ⟨by simp, List.Pairwise.nil⟩
  | succ n ih =>
    intro samples baseline used bs rest h
    rw [calibrate_axes] at h
    rcases hw : wait_for_axis_movement samples baseline used cal_thresh with
      _ | ⟨⟨i, inv⟩, last, rest1⟩ <;> rw [hw] at h
    · exact absurd h (by simp)
    dsimp only at h
    rcases hc : calibrate_axes n rest1 last (i :: used) with _ | ⟨bs1, rest2⟩ <;>
      rw [hc] at h
    · exact absurd h (by simp)
    dsimp only at h
    injection h with h
    injection h with h1 h2
    subst h1
    obtain ⟨hnot, hpair⟩ := ih rest1 last (i :: used) bs1 rest2 hc
    have hi : i ∉ used := wait_axis_not_used (by norm_num [cal_thresh]) hw
    constructor
    · intro x hx
      rcases List.mem_cons.1 hx with h3 | h3
      · rw [h3]; exact hi
      · intro hm
        exact hnot x h3 (List.mem_cons_of_mem _ hm)
    · rw [List.pairwise_cons]
      refine ⟨?_, hpair⟩
      intro y hy heq
      exact hnot y hy (by rw [← heq]; exact List.mem_cons_self _ _)

/-- C4: in wait_for_axis_movement, claimed axes are forced to zero delta and a
detection that fires selects a non-claimed axis whose absolute signed delta
from the baseline is maximal among all axes of the snapshot and at least the
threshold, reporting inverted exactly when the current value at that axis is
below its baseline; the blocking loop returns the result of the first
sample on which the detection fires; and on baseline [0,0,0,0] with threshold
0.6, no claimed axes and axis 2 moved to 0.9, it returns index 2, not
inverted. -/
theorem C4_axis_detection :
    (∀ (c b : List ℚ) (u : List ℕ) (t : ℚ) (i : ℕ) (inv : Bool), 0 < t →
      wait_for_axis_movement_step c b u t = some (i, inv) →
        i ∉ u ∧ t ≤ |diff_at c b u i| ∧
          (∀ j, j < c.length → |diff_at c b u j| ≤ |diff_at c b u i|) ∧
          (inv = true ↔ c.getD i 0 < b.getD i 0)) ∧
      (∀ (samples : List (List ℚ)) (b : List ℚ) (u : List ℕ) (t : ℚ)
        (r : ℕ × Bool) (s : List ℚ) (rest : List (List ℚ)),
        wait_for_axis_movement samples b u t = some (r, s, rest) →
          wait_for_axis_movement_step s b u t = some r) ∧
      wait_for_axis_movement [[0, 0, 9 / 10, 0]] [0, 0, 0, 0] [] (6 / 10) =
        some ((2, false), [0, 0, 9 / 10, 0], []) := by
  refine ⟨?_, ?_, ?_⟩
  · intro c b u t i inv ht h
    obtain ⟨_, h2, h3, h4, _⟩ := step_some h
    exact ⟨step_not_used ht h, h2, h3, h4⟩
  · intro samples b u t r s rest h
    exact wait_some_step h
  · norm_num [wait_for_axis_movement, wait_for_axis_movement_step, diff_pairs,
      diff_at, max_by_abs, List.range_succ]
    norm_num [abs_of_nonneg]

theorem C4_witness :
    2 ∉ ([] : List ℕ) ∧
      (6 / 10 : ℚ) ≤ |diff_at [0, 0, 9 / 10, 0] [0, 0, 0, 0] [] 2| ∧
      (∀ j, j < ([0, 0, 9 / 10, 0] : List ℚ).length →
        |diff_at [0, 0, 9 / 10, 0] [0, 0, 0, 0] [] j| ≤
          |diff_at [0, 0, 9 / 10, 0] [0, 0, 0, 0] [] 2|) ∧
      (false = true ↔
        ([0, 0, 9 / 10, 0] : List ℚ).getD 2 0 < ([0, 0, 0, 0] : List ℚ).getD 2 0) :=
  C4_axis_detection.1 [0, 0, 9 / 10, 0] [0, 0, 0, 0] [] (6 / 10) 2 false
    (by norm_num)
    (by norm_num [wait_for_axis_movement_step, diff_pairs, diff_at, max_by_abs,
        List.range_succ]
        norm_num [abs_of_nonneg])

/-- C10: tie-breaking in axis detection is deterministic by index: when the
detection fires on axis i, every axis j of the snapshot whose absolute delta
from baseline equals the selected (largest) one satisfies i ≤ j, because the
Python max keeps the first maximal element of the enumerated diffs. -/
theorem C10_tie_break (c b : List ℚ) (u : List ℕ) (t : ℚ) (i : ℕ) (inv : Bool)
    (h : wait_for_axis_movement_step c b u t = some (i, inv)) :
    ∀ j, j < c.length → |diff_at c b u j| = |diff_at c b u i| → i ≤ j := by
  intro j hj heq
  by_contra hij
  have hlt := (step_some h).2.2.2.2 j (Nat.lt_of_not_le hij)
  exact absurd heq (ne_of_lt hlt)

theorem C10_witness : (0 : ℕ) ≤ 2 :=
  C10_tie_break [9 / 10, 0, 9 / 10, 0] [0, 0, 0, 0] [] (6 / 10) 0 false
    (by norm_num [wait_for_axis_movement_step, diff_pairs, diff_at, max_by_abs,
        List.range_succ]
        norm_num [abs_of_nonneg])
    2 (by norm_num) (by norm_num [diff_at])

/-- C5: a mapping produced by a completed calibration run has pairwise
distinct physical axis indices across its four bindings and two distinct
physical button identities, for every sequence of sampled axis snapshots and
button-press events. -/
theorem C5_calibrate_distinct (samples : List (List ℚ)) (baseline0 : List ℚ)
    (events : List ℕ) (m : Mapping)
    (h : calibrate samples baseline0 events = some m) :
    (m.axes.Pairwise fun x y => x.index ≠ y.index) ∧ m.btn_a ≠ m.btn_b := by
  unfold calibrate at h
  rcases hc : calibrate_axes CAL_CHANNELS samples baseline0 [] with
    _ | ⟨axs, rest⟩ <;> rw [hc] at h
  · exact absurd h (by simp)
  dsimp only at h
  rcases ha : wait_for_button_press events [] with _ | ⟨a, evRest⟩ <;>
    rw [ha] at h
  · exact absurd h (by simp)
  dsimp only at h
  rcases hbp : wait_for_button_press evRest [a] with _ | ⟨b, evRest2⟩ <;>
    rw [hbp] at h
  · exact absurd h (by simp)
  dsimp only at h
  injection h with h
  subst h
  refine ⟨(calibrate_axes_distinct _ _ _ _ _ _ hc).2, ?_⟩
  have hbn := wait_button_not_taken evRest [a] b evRest2 hbp
  show a ≠ b
  intro heq
  subst heq
  exact hbn (List.mem_cons_self _ _)

theorem C5_witness :
    (([⟨0, false⟩, ⟨1, false⟩, ⟨2, false⟩, ⟨3, false⟩] :
        List AxisBinding).Pairwise fun x y => x.index ≠ y.index) ∧
      (5 : ℕ) ≠ 7 :=
  C5_calibrate_distinct
    [[1, 0, 0, 0], [1, 1, 0, 0], [1, 1, 1, 0], [1, 1, 1, 1]]
    [0, 0, 0, 0] [5, 5, 7]
    ⟨[⟨0, false⟩, ⟨1, false⟩, ⟨2, false⟩, ⟨3, false⟩], 5, 7⟩
    (by norm_num [calibrate, CAL_CHANNELS, calibrate_axes,
        wait_for_axis_movement, wait_for_axis_movement_step, diff_pairs,
        diff_at, max_by_abs, cal_thresh, List.range_succ,
        wait_for_button_press]
        show (0 : ℚ) ≤ 1
        norm_num)

/-- JSON values, as produced by Python json.load and consumed by json.dump.
The textual byte layer of the store is Python stdlib json (an external
library); the stored representation is modelled at the level of the parsed
JSON value. -/
inductive Json where
  | null
  | bool (b : Bool)
  | int (n : ℤ)
  | str (s : String)
  | arr (xs : List Json)
  | obj (fields : List (String × Json))

/-- Field access on a JSON object, as Python dict indexing d[key]. -/
def jget : List (String × Json) → String → Option Json
  | [], _ => none
  | (k, v) :: rest, key => if k = key then some v else jget rest key

/-- The JSON value written for one axis binding: the dict
{"index": idx, "inverted": inverted} assembled by wait_for_axis_movement. -/
def encode_axis (b : AxisBinding) : Json :=
  .obj [("index", .int (b.index : ℤ)), ("inverted", .bool b.inverted)]

/-- The JSON value written by the save in load_or_calibrate: the dict
{"axes": [...], "buttons": {"btn_a": a, "btn_b": b}} assembled by calibrate. -/
def encode_mapping (m : Mapping) : Json :=
  .obj [("axes", .arr (m.axes.map encode_axis)),
    ("buttons", .obj [("btn_a", .int (m.btn_a : ℤ)), ("btn_b", .int (m.btn_b : ℤ))])]

/-- Reading one axis config the way elrs_loop does (cfg["index"],
cfg["inverted"]): the former must be a non-negative integer, the latter a
boolean, else the value is not a well-formed binding. -/
def decode_axis : Json → Option AxisBinding
  | .obj fields =>
    match jget fields "index", jget fields "inverted" with
    | some (.int n), some (.bool b) =>
      if 0 ≤ n then some ⟨n.toNat, b⟩ else none
    | _, _ => none
  | _ => none

/-- Reading every element of the axes list, as the comprehensions over
mapping["axes"] in elrs_loop do. -/
def decode_axes : List Json → Option (List AxisBinding)
  | [] => some []
  | j :: rest =>
    match decode_axis j, decode_axes rest with
    | some b, some bs => some (b :: bs)
    | _, _ => none

/-- Reading a whole mapping back the way elrs_loop does: mapping["axes"] must
be a list of well-formed axis configs and mapping["buttons"] a dict with
integer entries "btn_a" and "btn_b". -/
def decode_mapping : Json → Option Mapping
  | .obj fields =>
    match jget fields "axes", jget fields "buttons" with
    | some (.arr xs), some (.obj bf) =>
      match decode_axes xs, jget bf "btn_a", jget bf "btn_b" with
      | some bs, some (.int a), some (.int b) =>
        if 0 ≤ a ∧ 0 ≤ b then some ⟨bs, a.toNat, b.toNat⟩ else none
      | _, _, _ => none
    | _, _ => none
  | _ => none

/-- The state of the persisted mapping file as load_or_calibrate observes it:
no file, a file whose open/read/JSON-parse raises an exception, or a file
whose content JSON-parses to the value j. -/
inductive LoadSource where
  | missing
  | unreadable
  | content (j : Json)

/-- The observable outcome of load_or_calibrate: a loaded JSON value returned
as the mapping, a freshly calibrated mapping (persisted and returned), or an
exception escaping from the save. -/
inductive LCResult where
  | loaded (j : Json)
  | calibrated (j : Json)
  | ioError

/-- Embeds load_or_calibrate: when force_calibration is false and the file
exists, json.load is attempted inside try; on success the parsed value is
returned with no validation; on an exception the code prints and falls
through to calibration. The calibration path runs calibrate (its result is
the parameter cal, modelled already JSON-encoded since it is immediately
dumped) and then saves it; there is no try/except around the dump, so a
failing save raises out of the function. -/
def load_or_calibrate (force : Bool) (src : LoadSource) (cal : Json)
    (saveOk : Bool) : LCResult :=
  if force then (if saveOk then .calibrated cal else .ioError)
  else
    match src with
    | .content j => .loaded j
    | _ => if saveOk then .calibrated cal else .ioError

/-- C3 (counterexample): the stored content is the valid JSON text of the
empty object, which does not parse as a well-formed mapping (no axis bindings,
no buttons), yet load_or_calibrate returns it as the mapping instead of
reporting corruption and falling back to calibration. -/
theorem C3_counterexample :
    load_or_calibrate false (.content (.obj [])) .null true =
        .loaded (.obj []) ∧
      decode_mapping (.obj []) = none :=
  ⟨rfl, rfl⟩

/-- C3 (amended): load_or_calibrate falls back to calibration exactly when
the stored file is missing or when reading/JSON-parsing it raises; stored
content that parses as JSON is returned as the mapping with no validation
against the mapping shape. -/
theorem C3_no_validation :
    (∀ (j cal : Json) (saveOk : Bool),
      load_or_calibrate false (.content j) cal saveOk = .loaded j) ∧
      (∀ cal : Json, load_or_calibrate false .unreadable cal true = .calibrated cal) ∧
      (∀ cal : Json, load_or_calibrate false .missing cal true = .calibrated cal) :=
  ⟨fun _ _ _ => rfl, fun _ => rfl, fun _ => rfl⟩

/-- C7 (counterexample): with no stored mapping and a save that fails, the
outcome of load_or_calibrate is an escaping exception, not the freshly
calibrated in-memory mapping: the current run aborts instead of proceeding. -/
theorem C7_counterexample :
    load_or_calibrate false .missing .null false = .ioError ∧
      LCResult.ioError ≠ .calibrated .null ∧ LCResult.ioError ≠ .loaded .null :=
  ⟨rfl, by simp, by simp⟩

/-- C7 (amended): there is no try/except around the save, so whenever the
calibration path is taken and the save fails, load_or_calibrate ends in an
escaping exception and the freshly calibrated mapping is not returned to the
caller. -/
theorem C7_save_failure_aborts :
    (∀ (src : LoadSource) (cal : Json),
      load_or_calibrate true src cal false = .ioError) ∧
      (∀ cal : Json, load_or_calibrate false .missing cal false = .ioError) ∧
      (∀ cal : Json, load_or_calibrate false .unreadable cal false = .ioError) :=
  ⟨fun _ _ => rfl, fun _ => rfl, fun _ => rfl⟩

lemma decode_encode_axis (b : AxisBinding) :
    decode_axis (encode_axis b) = some b := by
  have h0 : (0 : ℤ) ≤ (b.index : ℤ) := Int.ofNat_nonneg _
  simp [decode_axis, encode_axis, jget, h0]

lemma decode_encode_axes (l : List AxisBinding) :
    decode_axes (l.map encode_axis) = some l := by
  induction l with
  | nil => rfl
  | cons b rest ih =>
    rw [List.map_cons, decode_axes, decode_encode_axis, ih]

/-- C9: persisting a mapping and reading it back is lossless: decoding the
JSON value that the save writes returns a mapping equal to the original in
every field (all four axis bindings in order and both button identities).
The byte layer (json.dump of this value to text and json.load back) is
Python stdlib json, which round-trips such values exactly and is modelled as
the identity on the JSON value. -/
theorem C9_round_trip (m : Mapping) :
    decode_mapping (encode_mapping m) = some m := by
  have ha : (0 : ℤ) ≤ (m.btn_a : ℤ) := Int.ofNat_nonneg _
  have hb : (0 : ℤ) ≤ (m.btn_b : ℤ) := Int.ofNat_nonneg _
  simp [decode_mapping, encode_mapping, jget, decode_encode_axes, ha, hb]

end Gamepad
